import Mathlib

/-!
# Verification of the segment selection / overlay code of `visualime/visualize.py`

This file shallowly embeds the functions `select_segments` and `scale_opacity`
of `visualime/visualize.py` and proves properties of them.

Conventions of the embedding:
* numpy float arrays become `List ℚ` (for `select_segments`, whose arithmetic
  is ratios of pixel counts) or `List ℝ` (for `scale_opacity`, whose arithmetic
  involves an L2 norm);
* the two-dimensional `segment_mask` is flattened to a `List ℕ` of pixel
  labels; its length is the image area `shape[0] * shape[1]`;
* Python `raise ValueError` becomes `Except.error`;
* the self-recursion of `select_segments` is embedded with an explicit fuel
  parameter; `selectFuel_eq_of_valid` below proves that fuel 2 is exact for
  every validated input, so `select_segments` is defined as `selectFuel 2`.
-/

/-- Flattened `segment_mask`: one entry per pixel, the segment id of that
pixel.  The image area `shape[0] * shape[1]` is the list length. -/
abbrev Mask := List ℕ

/-- Embeds `np.max(segment_mask)` (total; callers below that depend on it restrict to
nonempty masks, where `np.max` is defined). -/
def maskMax (mask : Mask) : ℕ := mask.foldr max 0

/-- The comparison used to embed `np.argsort(-segment_weights)`: index `i`
comes before index `j` iff `i`'s weight is larger.  numpy's default
`kind='quicksort'` leaves the order of equal weights unspecified; this
embedding determinizes ties by ascending index. -/
def keyRel (w : List ℚ) (i j : ℕ) : Prop :=
  w.getD j 0 < w.getD i 0 ∨ (w.getD i 0 = w.getD j 0 ∧ i ≤ j)

instance keyRelDecidable (w : List ℚ) : DecidableRel (keyRel w) := fun _ _ =>
  inferInstanceAs (Decidable (_ ∨ _))

/-- Embeds `ordered_segments = np.argsort(-segment_weights)` (line 84): the
segment ids `0 .. len(segment_weights) - 1` sorted by descending weight.
The source's default `kind='quicksort'` does not specify the relative order
of equal weights; this embedding fixes ties by ascending index, a
determinization on which the properties proved below do not depend. -/
def ordered_segments (w : List ℚ) : List ℕ :=
  List.insertionSort (keyRel w) (List.range w.length)

/-- Embeds `np.isin(segment_mask, selected).sum()`: the number of pixels whose
segment id is in `sel`. -/
def pixelsCovered (mask : Mask) (sel : List ℕ) : ℕ :=
  mask.countP (fun p => sel.contains p)

/-- Embeds `np.isin(segment_mask, selected).sum() / _area` with
`_area = segment_mask.shape[0] * segment_mask.shape[1]`.  Written with
`Rat.divInt` (which the kernel evaluates) instead of `(· / ·)`;
`coverage_fraction_eq_div` proves the two agree. -/
def coverage_fraction (mask : Mask) (sel : List ℕ) : ℚ :=
  Rat.divInt (pixelsCovered mask sel : ℤ) (mask.length : ℤ)

/-- Python list slicing `l[:stop]` for a possibly negative `stop`
(`l[:-n]` drops the last `n` elements). -/
def pySlice (l : List ℕ) (stop : ℤ) : List ℕ :=
  if stop < 0 then l.take (l.length - stop.natAbs) else l.take stop.toNat

/-- The arguments of `select_segments`, in source order. -/
structure SelArgs where
  segment_weights : List ℚ
  segment_mask : Mask
  coverage : Option ℚ
  num_of_segments : Option ℤ
  min_coverage : ℚ
  max_coverage : ℚ
  min_num_of_segments : ℤ
  max_num_of_segments : Option ℤ
  deriving DecidableEq

deriving instance DecidableEq for Except

/-- The argument record of the recursive call
`select_segments(segment_weights=..., segment_mask=..., coverage=...)`:
every other parameter takes its Python default. -/
def covOnlyArgs (w : List ℚ) (mask : Mask) (c : ℚ) : SelArgs :=
  ⟨w, mask, some c, none, 0, 1, 0, none⟩

/-- A call with `num_of_segments` supplied and everything else explicit. -/
def countArgs (w : List ℚ) (mask : Mask) (k : ℤ) (minC maxC : ℚ) (minN : ℤ)
    (maxN? : Option ℤ) : SelArgs :=
  ⟨w, mask, none, some k, minC, maxC, minN, maxN?⟩

/-- A call with `num_of_segments` supplied and default bounds. -/
def defaultCountArgs (w : List ℚ) (mask : Mask) (k : ℤ) : SelArgs :=
  countArgs w mask k 0 1 0 none

/-- Line 66: `max_num_of_segments = max_num_of_segments or int(np.max(segment_mask) + 1)`.
Python `or` replaces both `None` and the falsy value `0` by the derived
default. -/
def resolvedMaxNum (a : SelArgs) : ℤ :=
  match a.max_num_of_segments with
  | none => (maskMax a.segment_mask : ℤ) + 1
  | some v => if v = 0 then (maskMax a.segment_mask : ℤ) + 1 else v

/-- Lines 68-80: the four `raise ValueError` guards of `select_segments`. -/
def invalidArgs (a : SelArgs) : Bool :=
  (a.coverage.isNone && a.num_of_segments.isNone) ||
  (a.coverage.isSome && a.num_of_segments.isSome) ||
  decide (a.min_coverage ≥ a.max_coverage) ||
  decide (a.min_num_of_segments ≥ resolvedMaxNum a)

/-- Errors of the embedded `select_segments`: the `ValueError` of the
validation block, and exhaustion of the recursion fuel. -/
inductive SelErr where
  | invalidConfig
  | outOfFuel
  deriving DecidableEq

/-- Lines 90-96: scan prefixes `ordered_segments[:i]`, `i = 0 .. max_num`,
and stop at the first whose coverage fraction reaches `c`, resolving
`num_of_segments = i - 2`; if none reaches it, `num_of_segments = max_num`
(the `for ... else` branch). -/
def resolveNumFromCoverage (w : List ℚ) (mask : Mask) (c : ℚ) (maxN : ℤ) : ℤ :=
  match (List.range (maxN + 1).toNat).find?
      (fun i => decide (coverage_fraction mask ((ordered_segments w).take i) ≥ c)) with
  | some i => (i : ℤ) - 2
  | none => maxN

/-- Lines 98-117: clamp the count into the count bounds, slice the candidate
`ordered_segments[: num_of_segments + 1]`, and either accept it or re-invoke
(`recurse`) with the violated coverage bound as the new target. -/
def countPath (recurse : SelArgs → Except SelErr (List ℕ)) (a : SelArgs)
    (maxN : ℤ) (k : ℤ) : Except SelErr (List ℕ) :=
  let k' := max a.min_num_of_segments (min k maxN)
  let cand := pySlice (ordered_segments a.segment_weights) (k' + 1)
  if coverage_fraction a.segment_mask cand > a.max_coverage then
    recurse (covOnlyArgs a.segment_weights a.segment_mask a.max_coverage)
  else if coverage_fraction a.segment_mask cand < a.min_coverage then
    recurse (covOnlyArgs a.segment_weights a.segment_mask a.min_coverage)
  else .ok cand

/-- Embeds `select_segments` with an explicit recursion budget.  Each invocation
validates its arguments (lines 66-80), resolves a count from a supplied
coverage (lines 86-96), and runs the count path (lines 98-117), whose
recursive calls consume one unit of fuel. -/
def selectFuel : ℕ → SelArgs → Except SelErr (List ℕ)
  | 0, _ => .error .outOfFuel
  | fuel + 1, a =>
    if invalidArgs a then .error .invalidConfig
    else
      match a.coverage, a.num_of_segments with
      | some c, none =>
        countPath (selectFuel fuel) a (resolvedMaxNum a)
          (resolveNumFromCoverage a.segment_weights a.segment_mask
            (max a.min_coverage (min c a.max_coverage)) (resolvedMaxNum a))
      | none, some k => countPath (selectFuel fuel) a (resolvedMaxNum a) k
      | _, _ => .error .invalidConfig

/-- Embeds `select_segments`; fuel 2 is exact: `selectFuel_eq_of_valid` proves the
result is fuel-independent from 2 on for every validated input. -/
def select_segments (a : SelArgs) : Except SelErr (List ℕ) := selectFuel 2 a

/-- The clamped count of line 99-100: `max(min(k, maxN), minN)`. -/
def clampedCount (a : SelArgs) (k : ℤ) : ℤ :=
  max a.min_num_of_segments (min k (resolvedMaxNum a))

/-- The selection computed by a coverage-only call
`select_segments(weights, mask, coverage=c)` (all bounds at their defaults):
resolve a count from the coverage scan, clamp it into `[0, maskMax + 1]`,
and slice.  `covOnly_selectFuel` proves the embedded function returns
exactly this. -/
def covSelectDefault (w : List ℚ) (mask : Mask) (c : ℚ) : List ℕ :=
  pySlice (ordered_segments w)
    (max 0 (min (resolveNumFromCoverage w mask (max 0 (min c 1))
      ((maskMax mask : ℤ) + 1)) ((maskMax mask : ℤ) + 1)) + 1)

theorem coverage_fraction_eq_div (mask : Mask) (sel : List ℕ) :
    coverage_fraction mask sel = (pixelsCovered mask sel : ℚ) / (mask.length : ℚ) := by
  simp [coverage_fraction, Rat.divInt_eq_div]


theorem coverage_fraction_nonneg (mask : Mask) (sel : List ℕ) :
    0 ≤ coverage_fraction mask sel := by
  rw [coverage_fraction_eq_div]
  exact div_nonneg (Nat.cast_nonneg _) (Nat.cast_nonneg _)

theorem coverage_fraction_le_one (mask : Mask) (sel : List ℕ) :
    coverage_fraction mask sel ≤ 1 := by
  rw [coverage_fraction_eq_div]
  rcases Nat.eq_zero_or_pos mask.length with h | h
  · have h0 : pixelsCovered mask sel = 0 :=
      Nat.le_zero.mp (h ▸ List.countP_le_length _)
    simp [h0]
  · rw [div_le_one (by exact_mod_cast h)]
    exact_mod_cast List.countP_le_length _

theorem pySlice_of_nonneg {s : ℤ} (l : List ℕ) (h : 0 ≤ s) :
    pySlice l s = l.take s.toNat := by
  simp [pySlice, not_lt.mpr h]

/-- Unfolding equation of `selectFuel` at positive fuel. -/
theorem selectFuel_succ (fuel : ℕ) (a : SelArgs) :
    selectFuel (fuel + 1) a =
      (if invalidArgs a then .error .invalidConfig
      else
        match a.coverage, a.num_of_segments with
        | some c, none =>
          countPath (selectFuel fuel) a (resolvedMaxNum a)
            (resolveNumFromCoverage a.segment_weights a.segment_mask
              (max a.min_coverage (min c a.max_coverage)) (resolvedMaxNum a))
        | none, some k => countPath (selectFuel fuel) a (resolvedMaxNum a) k
        | _, _ => .error .invalidConfig) := rfl

/-- A coverage-only call (the shape of the recursive calls at lines 105-115)
never recurses: at any positive fuel it returns `covSelectDefault`. -/
theorem covOnly_selectFuel (w : List ℚ) (mask : Mask) (c : ℚ) (fuel : ℕ) :
    selectFuel (fuel + 1) (covOnlyArgs w mask c) = .ok (covSelectDefault w mask c) := by
  have hvalid : invalidArgs (covOnlyArgs w mask c) = false := by
    have h1 : ¬ ((0:ℚ) ≥ 1) := by norm_num
    have h2 : ¬ ((0:ℤ) ≥ (maskMax mask : ℤ) + 1) := by
      have h3 : (0:ℤ) ≤ (maskMax mask : ℤ) := Int.ofNat_nonneg _
      omega
    simp [invalidArgs, covOnlyArgs, resolvedMaxNum, h1, h2]
  rw [selectFuel_succ, hvalid]
  simp only [Bool.false_eq_true, if_false, covOnlyArgs]
  rw [countPath]
  rw [if_neg (not_lt.mpr (coverage_fraction_le_one _ _)),
    if_neg (not_lt.mpr (coverage_fraction_nonneg _ _))]
  rfl

/-- The function `countPath` is insensitive to recursion fuel (its recursive calls are
coverage-only calls, which never recurse further), and always succeeds. -/
theorem countPath_selectFuel_indep (a : SelArgs) (maxN k : ℤ) (m : ℕ) :
    countPath (selectFuel (m + 1)) a maxN k = countPath (selectFuel 1) a maxN k ∧
    ∃ l, countPath (selectFuel 1) a maxN k = .ok l := by
  rw [countPath, countPath]
  by_cases h1 : coverage_fraction a.segment_mask
      (pySlice (ordered_segments a.segment_weights)
        (max a.min_num_of_segments (min k maxN) + 1)) > a.max_coverage
  · rw [if_pos h1, if_pos h1, covOnly_selectFuel, covOnly_selectFuel]
    exact ⟨rfl, _, rfl⟩
  · rw [if_neg h1, if_neg h1]
    by_cases h2 : coverage_fraction a.segment_mask
        (pySlice (ordered_segments a.segment_weights)
          (max a.min_num_of_segments (min k maxN) + 1)) < a.min_coverage
    · rw [if_pos h2, if_pos h2, covOnly_selectFuel, covOnly_selectFuel]
      exact ⟨rfl, _, rfl⟩
    · rw [if_neg h2, if_neg h2]
      exact ⟨rfl, _, rfl⟩

/-- On validated arguments `selectFuel` is fuel-independent from fuel 2 on
and always returns a selection. -/
theorem selectFuel_valid_eq (a : SelArgs) (h : invalidArgs a = false) (n : ℕ) :
    selectFuel (n + 2) a = selectFuel 2 a ∧ ∃ l, selectFuel 2 a = .ok l := by
  have e2 : (2:ℕ) = 1 + 1 := by norm_num
  match hc : a.coverage, hn : a.num_of_segments with
  | none, none =>
    rw [invalidArgs, hc, hn] at h
    simp at h
  | some c, some k =>
    rw [invalidArgs, hc, hn] at h
    simp at h
  | some c, none =>
    rw [show n + 2 = (n + 1) + 1 by omega, selectFuel_succ, h, e2, selectFuel_succ, h]
    simp only [Bool.false_eq_true, if_false, hc, hn]
    exact countPath_selectFuel_indep a (resolvedMaxNum a) _ n
  | none, some k =>
    rw [show n + 2 = (n + 1) + 1 by omega, selectFuel_succ, h, e2, selectFuel_succ, h]
    simp only [Bool.false_eq_true, if_false, hc, hn]
    exact countPath_selectFuel_indep a (resolvedMaxNum a) k n

/-- C3: for every input that passes validation, `select_segments`
terminates with a selection, and recursion depth is at most 1: fuel 2 (one
top-level invocation plus one recursive re-invocation that itself never
recurses) already yields the fuel-independent result. -/
theorem C3_terminates_depth_le_one (a : SelArgs) (h : invalidArgs a = false) :
    (∃ l, select_segments a = .ok l) ∧
    ∀ n : ℕ, selectFuel (n + 2) a = select_segments a :=
  ⟨(selectFuel_valid_eq a h 0).2, fun n => (selectFuel_valid_eq a h n).1⟩

/-- Witness for `C3_terminates_depth_le_one` at a concrete validated call. -/
theorem C3_terminates_depth_le_one_witness :
    invalidArgs (defaultCountArgs [1, 2] [0, 1] 0) = false ∧
    ((∃ l, select_segments (defaultCountArgs [1, 2] [0, 1] 0) = .ok l) ∧
     ∀ n : ℕ, selectFuel (n + 2) (defaultCountArgs [1, 2] [0, 1] 0) =
       select_segments (defaultCountArgs [1, 2] [0, 1] 0)) :=
  ⟨by decide, C3_terminates_depth_le_one _ (by decide)⟩

/-- C1: a validated count-driven call whose candidate
`ordered_segments[: clamped_count + 1]` satisfies both coverage bounds
returns exactly that candidate: the first `clamped_count + 1` ids of the
rank order, where `clamped_count = max(min_num, min(k, max_num))`. -/
theorem C1_count_candidate_prefix (a : SelArgs) (k : ℤ)
    (hcov : a.coverage = none) (hnum : a.num_of_segments = some k)
    (hminN : 0 ≤ a.min_num_of_segments)
    (hvalid : invalidArgs a = false)
    (hle : coverage_fraction a.segment_mask
      ((ordered_segments a.segment_weights).take (clampedCount a k + 1).toNat) ≤
      a.max_coverage)
    (hge : a.min_coverage ≤ coverage_fraction a.segment_mask
      ((ordered_segments a.segment_weights).take (clampedCount a k + 1).toNat)) :
    select_segments a =
      .ok ((ordered_segments a.segment_weights).take (clampedCount a k + 1).toNat) := by
  have hk : (0:ℤ) ≤ clampedCount a k + 1 := by
    have h2 := le_trans hminN (le_max_left a.min_num_of_segments (min k (resolvedMaxNum a)))
    rw [clampedCount]
    omega
  have hsl : pySlice (ordered_segments a.segment_weights)
      (max a.min_num_of_segments (min k (resolvedMaxNum a)) + 1)
      = (ordered_segments a.segment_weights).take (clampedCount a k + 1).toNat := by
    rw [show max a.min_num_of_segments (min k (resolvedMaxNum a)) = clampedCount a k from rfl]
    exact pySlice_of_nonneg _ hk
  show selectFuel 2 a = _
  rw [show (2:ℕ) = 1 + 1 by norm_num, selectFuel_succ, hvalid]
  simp only [Bool.false_eq_true, if_false, hcov, hnum]
  rw [countPath]
  rw [hsl, if_neg (not_lt.mpr hle), if_neg (not_lt.mpr hge)]

/-- Witness for `C1_count_candidate_prefix`: `num_of_segments = 0` on a
two-segment image selects the single top-weighted segment. -/
theorem C1_count_candidate_prefix_witness :
    invalidArgs (defaultCountArgs [1, 2] [0, 1] 0) = false ∧
    coverage_fraction [0, 1] ((ordered_segments [1, 2]).take
      (clampedCount (defaultCountArgs [1, 2] [0, 1] 0) 0 + 1).toNat) ≤ 1 ∧
    select_segments (defaultCountArgs [1, 2] [0, 1] 0) =
      .ok ((ordered_segments [1, 2]).take
        (clampedCount (defaultCountArgs [1, 2] [0, 1] 0) 0 + 1).toNat) :=
  ⟨by decide, by decide,
    C1_count_candidate_prefix _ 0 rfl rfl (by decide) (by decide) (by decide) (by decide)⟩

/-- The error condition exactly as claim C2 words it: `max_num_of_segments`
defaults to `highest id in mask + 1` only **when unset**.  Stated from the
claim, for comparison with the code's `invalidArgs`. -/
def specClaimsError (a : SelArgs) : Bool :=
  (a.coverage.isNone && a.num_of_segments.isNone) ||
  (a.coverage.isSome && a.num_of_segments.isSome) ||
  decide (a.min_coverage ≥ a.max_coverage) ||
  decide (a.min_num_of_segments ≥
    (match a.max_num_of_segments with
     | none => (maskMax a.segment_mask : ℤ) + 1
     | some v => v))

/-- C2, counterexample: with `min_num_of_segments = 0` and
`max_num_of_segments = 0` the claim's condition holds (`0 ≥ 0`), so the
claim predicts an invalid-configuration error, but the code replaces the
falsy value `0` by the derived default (`np.max(mask) + 1 = 1`) via Python
`or` and returns a selection without error. -/
theorem C2_claim_counterexample :
    specClaimsError ⟨[1], [0], none, some 0, 0, 1, 0, some 0⟩ = true ∧
    select_segments ⟨[1], [0], none, some 0, 0, 1, 0, some 0⟩ = .ok [0] :=
  ⟨by decide, by decide⟩

/-- C2, amended: for a nonempty mask, `select_segments` raises an
invalid-configuration error (and raises nothing else) iff both or neither of
coverage/num_of_segments are supplied, or `min_coverage ≥ max_coverage`, or
`min_num_of_segments ≥ max_num_of_segments`, where `max_num_of_segments`
defaults to `highest id in mask + 1` when unset **or when supplied as `0`**
(Python `or` truthiness); the error is decided before any selection
computation, independently of the weights. -/
theorem C2_amended_error_iff (a : SelArgs) (w' : List ℚ)
    (_hmask : a.segment_mask ≠ []) :
    ((∃ e, select_segments a = .error e) ↔ invalidArgs a = true) ∧
    (select_segments a = .error .invalidConfig ↔ invalidArgs a = true) ∧
    invalidArgs ⟨w', a.segment_mask, a.coverage, a.num_of_segments,
      a.min_coverage, a.max_coverage, a.min_num_of_segments,
      a.max_num_of_segments⟩ = invalidArgs a := by
  refine ⟨?_, ?_, rfl⟩ <;> cases h : invalidArgs a with
  | true =>
    have hsel : select_segments a = .error .invalidConfig := by
      show selectFuel 2 a = _
      rw [show (2:ℕ) = 1 + 1 by norm_num, selectFuel_succ, h, if_pos rfl]
    first
    | exact ⟨fun _ => rfl, fun _ => ⟨_, hsel⟩⟩
    | exact ⟨fun _ => rfl, fun _ => hsel⟩
  | false =>
    obtain ⟨l, hl⟩ := (selectFuel_valid_eq a h 0).2
    have hsel : select_segments a = .ok l := hl
    constructor
    · intro hc
      first
      | obtain ⟨e, he⟩ := hc; rw [hsel] at he; exact absurd he (by simp)
      | (rw [hsel] at hc; exact absurd hc (by simp))
    · intro hc
      exact absurd hc (by simp [h])

/-- Witness for `C2_amended_error_iff`: neither coverage nor count given
really is an error, on a one-pixel mask. -/
theorem C2_amended_error_iff_witness :
    (([0] : Mask) ≠ []) ∧
    (((∃ e, select_segments ⟨[1], [0], none, none, 0, 1, 0, none⟩ = .error e) ↔
        invalidArgs ⟨[1], [0], none, none, 0, 1, 0, none⟩ = true) ∧
     (select_segments ⟨[1], [0], none, none, 0, 1, 0, none⟩ = .error .invalidConfig ↔
        invalidArgs ⟨[1], [0], none, none, 0, 1, 0, none⟩ = true) ∧
     invalidArgs ⟨[2, 3], [0], none, none, 0, 1, 0, none⟩ =
       invalidArgs ⟨[1], [0], none, none, 0, 1, 0, none⟩) :=
  ⟨by decide, C2_amended_error_iff ⟨[1], [0], none, none, 0, 1, 0, none⟩ [2, 3] (by decide)⟩

/-- C4: with `coverage=1.0` and default bounds on a two-segment image
whose ids `0` and `1` both occur in the mask, the code returns only `[1]`
(the heavier segment, coverage 1/2) instead of all ids: the `i - 2` /
`+ 1` slicing drops the last ranked segment. -/
theorem C4_coverage_one_misses_a_segment :
    select_segments ⟨[1, 2], [0, 1], some 1, none, 0, 1, 0, none⟩ = .ok [1] ∧
    (0 : ℕ) ∈ ([0, 1] : Mask) ∧ (0 : ℕ) ∉ ([1] : List ℕ) :=
  ⟨by decide, by decide, by decide⟩

/-- C5: with `coverage=0.0` and default bounds (`min_num_of_segments = 0`)
the code returns one segment, not an empty selection: the scan hits the
target at `i = 0`, resolves `num_of_segments = -2`, which clamps to `0`, and
`ordered_segments[:1]` has one element. -/
theorem C5_coverage_zero_selects_one_segment :
    select_segments ⟨[1], [0], some 0, none, 0, 1, 0, none⟩ = .ok [0] ∧
    ([0] : List ℕ).length = 1 :=
  ⟨by decide, rfl⟩

/-- If `q` implies `p` pointwise, the first hit of `p` on a contiguous range
comes no later than the first hit of `q`. -/
theorem find?_range_le {p q : ℕ → Bool} (hpq : ∀ a, q a = true → p a = true) :
    ∀ (n s x : ℕ), (List.range' s n).find? q = some x →
      ∃ y, (List.range' s n).find? p = some y ∧ y ≤ x := by
  intro n
  induction n with
  | zero => intro s x hx; simp [List.range'] at hx
  | succ m ih =>
    intro s x hx
    rw [List.range'_succ] at hx ⊢
    by_cases hqs : q s = true
    · rw [List.find?_cons_of_pos _ hqs] at hx
      injection hx with hx'
      subst hx'
      exact ⟨s, List.find?_cons_of_pos _ (hpq s hqs), le_refl s⟩
    · rw [List.find?_cons_of_neg _ hqs] at hx
      by_cases hps : p s = true
      · refine ⟨s, List.find?_cons_of_pos _ hps, ?_⟩
        have hmem := List.mem_of_find?_eq_some hx
        have hx1 := (List.mem_range'_1.mp hmem).1
        omega
      · obtain ⟨y, hy, hyx⟩ := ih (s + 1) x hx
        exact ⟨y, by rw [List.find?_cons_of_neg _ hps]; exact hy, hyx⟩

theorem find?_none_of_imp {p q : ℕ → Bool} (hpq : ∀ a, q a = true → p a = true)
    {l : List ℕ} (h : l.find? p = none) : l.find? q = none := by
  rw [List.find?_eq_none] at h ⊢
  exact fun x hx hq => h x hx (hpq x hq)

/-- Raising the coverage target never lowers the count resolved by the
prefix scan of lines 90-96. -/
theorem resolveNumFromCoverage_mono (w : List ℚ) (mask : Mask) (maxN : ℤ)
    {c1 c2 : ℚ} (h : c1 ≤ c2) :
    resolveNumFromCoverage w mask c1 maxN ≤ resolveNumFromCoverage w mask c2 maxN := by
  have hpq : ∀ i : ℕ,
      (decide (coverage_fraction mask ((ordered_segments w).take i) ≥ c2)) = true →
      (decide (coverage_fraction mask ((ordered_segments w).take i) ≥ c1)) = true := by
    intro i hi
    rw [decide_eq_true_eq] at hi ⊢
    exact le_trans h hi
  rw [resolveNumFromCoverage, resolveNumFromCoverage]
  cases h1 : (List.range (maxN + 1).toNat).find?
      (fun i => decide (coverage_fraction mask ((ordered_segments w).take i) ≥ c1)) with
  | none =>
    have h2 : (List.range (maxN + 1).toNat).find?
        (fun i => decide (coverage_fraction mask ((ordered_segments w).take i) ≥ c2)) = none :=
      find?_none_of_imp hpq h1
    rw [h2]
  | some i1 =>
    cases h2 : (List.range (maxN + 1).toNat).find?
        (fun i => decide (coverage_fraction mask ((ordered_segments w).take i) ≥ c2)) with
    | none =>
      have hmem := List.mem_of_find?_eq_some h1
      have hlt := List.mem_range.mp hmem
      show (i1 : ℤ) - 2 ≤ maxN
      omega
    | some i2 =>
      obtain ⟨y, hy, hyx⟩ := find?_range_le hpq _ 0 i2
        (by rw [← List.range_eq_range']; exact h2)
      rw [← List.range_eq_range', h1] at hy
      injection hy with hy'
      show (i1 : ℤ) - 2 ≤ (i2 : ℤ) - 2
      omega

theorem take_subset_take {α : Type _} (l : List α) {a b : ℕ} (h : a ≤ b) :
    l.take a ⊆ l.take b := by
  intro x hx
  have he : l.take a = (l.take b).take a := by
    rw [List.take_take, Nat.min_eq_left h]
  rw [he] at hx
  exact List.take_subset _ _ hx

theorem pixelsCovered_take_mono (mask : Mask) (l : List ℕ) {a b : ℕ} (h : a ≤ b) :
    pixelsCovered mask (l.take a) ≤ pixelsCovered mask (l.take b) := by
  apply List.countP_mono_left
  intro x _ hx
  exact List.elem_eq_true_of_mem (take_subset_take l h (List.mem_of_elem_eq_true hx))

/-- Longer prefixes of the rank order never cover a smaller fraction. -/
theorem coverage_fraction_take_mono (mask : Mask) (l : List ℕ) {a b : ℕ} (h : a ≤ b) :
    coverage_fraction mask (l.take a) ≤ coverage_fraction mask (l.take b) := by
  rw [coverage_fraction_eq_div, coverage_fraction_eq_div]
  rcases Nat.eq_zero_or_pos mask.length with h0 | h0
  · simp [h0]
  · rw [div_le_div_iff_of_pos_right (by exact_mod_cast h0)]
    exact_mod_cast pixelsCovered_take_mono mask l h

/-- With the default coverage bounds (`0`/`1`) the count path accepts its
candidate outright. -/
theorem countPath_wide_bounds (recurse : SelArgs → Except SelErr (List ℕ))
    (a : SelArgs) (maxN k : ℤ) (hmin : a.min_coverage = 0) (hmax : a.max_coverage = 1) :
    countPath recurse a maxN k =
      .ok (pySlice (ordered_segments a.segment_weights)
        (max a.min_num_of_segments (min k maxN) + 1)) := by
  rw [countPath, hmin, hmax,
    if_neg (not_lt.mpr (coverage_fraction_le_one _ _)),
    if_neg (not_lt.mpr (coverage_fraction_nonneg _ _))]

/-- Evaluation of a default-bounds count-driven call: it returns the
prefix of the rank order of length `max(0, min(k, maskMax + 1)) + 1`. -/
theorem defaultCount_eval (w : List ℚ) (mask : Mask) (k : ℤ) (fuel : ℕ) :
    selectFuel (fuel + 1) (defaultCountArgs w mask k) =
      .ok ((ordered_segments w).take
        ((max 0 (min k ((maskMax mask : ℤ) + 1)) + 1).toNat)) := by
  have hvalid : invalidArgs (defaultCountArgs w mask k) = false := by
    have h1 : ¬ ((0:ℚ) ≥ 1) := by norm_num
    have h2 : ¬ ((0:ℤ) ≥ (maskMax mask : ℤ) + 1) := by
      have h3 : (0:ℤ) ≤ (maskMax mask : ℤ) := Int.ofNat_nonneg _
      omega
    simp [invalidArgs, defaultCountArgs, countArgs, resolvedMaxNum, h1, h2]
  rw [selectFuel_succ, hvalid]
  simp only [Bool.false_eq_true, if_false, defaultCountArgs, countArgs]
  rw [countPath_wide_bounds _ _ _ _ rfl rfl, pySlice_of_nonneg]
  · rfl
  · rw [show (SelArgs.mk w mask none (some k) 0 1 0 none).min_num_of_segments = (0:ℤ) from rfl]
    have h4 : (0:ℤ) ≤ max 0 (min k (resolvedMaxNum ⟨w, mask, none, some k, 0, 1, 0, none⟩)) :=
      le_max_left _ _
    omega

/-- The selection `covSelectDefault` written as a plain prefix of the rank order. -/
theorem covSelectDefault_eq_take (w : List ℚ) (mask : Mask) (c : ℚ) :
    covSelectDefault w mask c = (ordered_segments w).take
      ((max 0 (min (resolveNumFromCoverage w mask (max 0 (min c 1))
        ((maskMax mask : ℤ) + 1)) ((maskMax mask : ℤ) + 1)) + 1)).toNat := by
  rw [covSelectDefault, pySlice_of_nonneg]
  have h4 : (0:ℤ) ≤ max 0 (min (resolveNumFromCoverage w mask (max 0 (min c 1))
      ((maskMax mask : ℤ) + 1)) ((maskMax mask : ℤ) + 1)) := le_max_left _ _
  omega

/-- C7: for a fixed valid weights/mask pair and default bounds, the
measured coverage fraction of the returned selection is weakly monotone both
in a supplied `num_of_segments` and in a supplied `coverage` target. -/
theorem C7_selection_coverage_monotone (w : List ℚ) (mask : Mask)
    (_hmask : mask ≠ []) (k1 k2 : ℤ) (hk : k1 ≤ k2) (c1 c2 : ℚ) (hc : c1 ≤ c2) :
    (∃ l1 l2, select_segments (defaultCountArgs w mask k1) = .ok l1 ∧
      select_segments (defaultCountArgs w mask k2) = .ok l2 ∧
      coverage_fraction mask l1 ≤ coverage_fraction mask l2) ∧
    (∃ m1 m2, select_segments (covOnlyArgs w mask c1) = .ok m1 ∧
      select_segments (covOnlyArgs w mask c2) = .ok m2 ∧
      coverage_fraction mask m1 ≤ coverage_fraction mask m2) := by
  constructor
  · refine ⟨_, _, defaultCount_eval w mask k1 1, defaultCount_eval w mask k2 1, ?_⟩
    apply coverage_fraction_take_mono
    apply Int.toNat_le_toNat
    have h1 : max 0 (min k1 ((maskMax mask : ℤ) + 1)) ≤
        max 0 (min k2 ((maskMax mask : ℤ) + 1)) :=
      max_le_max (le_refl 0) (min_le_min hk (le_refl _))
    omega
  · refine ⟨_, _, covOnly_selectFuel w mask c1 1, covOnly_selectFuel w mask c2 1, ?_⟩
    rw [covSelectDefault_eq_take, covSelectDefault_eq_take]
    apply coverage_fraction_take_mono
    apply Int.toNat_le_toNat
    have hclamp : max 0 (min c1 1) ≤ max 0 (min c2 1) :=
      max_le_max (le_refl 0) (min_le_min hc (le_refl 1))
    have hres := resolveNumFromCoverage_mono w mask ((maskMax mask : ℤ) + 1) hclamp
    have h2 : max 0 (min (resolveNumFromCoverage w mask (max 0 (min c1 1))
          ((maskMax mask : ℤ) + 1)) ((maskMax mask : ℤ) + 1)) ≤
        max 0 (min (resolveNumFromCoverage w mask (max 0 (min c2 1))
          ((maskMax mask : ℤ) + 1)) ((maskMax mask : ℤ) + 1)) :=
      max_le_max (le_refl 0) (min_le_min hres (le_refl _))
    omega

/-- Witness for `C7_selection_coverage_monotone` on a concrete image. -/
theorem C7_selection_coverage_monotone_witness :
    (([0, 1] : Mask) ≠ []) ∧ ((0:ℤ) ≤ 1) ∧ ((0:ℚ) ≤ 1) ∧
    ((∃ l1 l2, select_segments (defaultCountArgs [1, 2] [0, 1] 0) = .ok l1 ∧
      select_segments (defaultCountArgs [1, 2] [0, 1] 1) = .ok l2 ∧
      coverage_fraction [0, 1] l1 ≤ coverage_fraction [0, 1] l2) ∧
    (∃ m1 m2, select_segments (covOnlyArgs [1, 2] [0, 1] 0) = .ok m1 ∧
      select_segments (covOnlyArgs [1, 2] [0, 1] 1) = .ok m2 ∧
      coverage_fraction [0, 1] m1 ≤ coverage_fraction [0, 1] m2)) :=
  ⟨by decide, by decide, by decide,
    C7_selection_coverage_monotone [1, 2] [0, 1] (by decide) 0 1 (by decide) 0 1 (by decide)⟩

/-- C8: when the count-driven candidate violates a coverage bound, the
re-invocation passes only the substituted coverage target (all other
parameters reverting to their defaults), so the result equals the
default-bounds coverage-only selection for that target — it is no longer
constrained by the caller's bounds. -/
theorem C8_recursion_reverts_to_defaults (a : SelArgs) (k : ℤ)
    (hcov : a.coverage = none) (hnum : a.num_of_segments = some k)
    (hvalid : invalidArgs a = false)
    (hviol : coverage_fraction a.segment_mask
        (pySlice (ordered_segments a.segment_weights) (clampedCount a k + 1)) >
        a.max_coverage ∨
      coverage_fraction a.segment_mask
        (pySlice (ordered_segments a.segment_weights) (clampedCount a k + 1)) <
        a.min_coverage) :
    select_segments a =
      select_segments (covOnlyArgs a.segment_weights a.segment_mask
        (if coverage_fraction a.segment_mask
            (pySlice (ordered_segments a.segment_weights) (clampedCount a k + 1)) >
            a.max_coverage
         then a.max_coverage else a.min_coverage)) ∧
    select_segments (covOnlyArgs a.segment_weights a.segment_mask
        (if coverage_fraction a.segment_mask
            (pySlice (ordered_segments a.segment_weights) (clampedCount a k + 1)) >
            a.max_coverage
         then a.max_coverage else a.min_coverage)) =
      .ok (covSelectDefault a.segment_weights a.segment_mask
        (if coverage_fraction a.segment_mask
            (pySlice (ordered_segments a.segment_weights) (clampedCount a k + 1)) >
            a.max_coverage
         then a.max_coverage else a.min_coverage)) := by
  have hsel : ∀ c : ℚ,
      select_segments (covOnlyArgs a.segment_weights a.segment_mask c) =
        .ok (covSelectDefault a.segment_weights a.segment_mask c) := fun c =>
    covOnly_selectFuel a.segment_weights a.segment_mask c 1
  refine ⟨?_, hsel _⟩
  show selectFuel 2 a = _
  rw [show (2:ℕ) = 1 + 1 by norm_num, selectFuel_succ, hvalid]
  simp only [Bool.false_eq_true, if_false, hcov, hnum]
  rw [countPath]
  rw [show max a.min_num_of_segments (min k (resolvedMaxNum a)) = clampedCount a k from rfl]
  by_cases hgt : coverage_fraction a.segment_mask
      (pySlice (ordered_segments a.segment_weights) (clampedCount a k + 1)) > a.max_coverage
  · rw [if_pos hgt, if_pos hgt, hsel, covOnly_selectFuel _ _ _ 0]
  · have hlt : coverage_fraction a.segment_mask
        (pySlice (ordered_segments a.segment_weights) (clampedCount a k + 1)) <
        a.min_coverage := hviol.resolve_left hgt
    rw [if_neg hgt, if_neg hgt, if_pos hlt, hsel, covOnly_selectFuel _ _ _ 0]

/-- Concrete arguments for the `C8` witness: `num_of_segments=0`,
`max_coverage=1/2`, and an image whose top-ranked segment covers 3/4. -/
def c8args : SelArgs := ⟨[2, 1], [0, 0, 0, 1], none, some 0, 0, Rat.divInt 1 2, 0, none⟩

/-- The candidate coverage fraction of the `C8` witness call. -/
def c8frac : ℚ :=
  coverage_fraction [0, 0, 0, 1] (pySlice (ordered_segments [2, 1]) (clampedCount c8args 0 + 1))

/-- The substituted coverage target of the `C8` witness call. -/
def c8target : ℚ := if c8frac > Rat.divInt 1 2 then Rat.divInt 1 2 else 0

/-- Witness for `C8_recursion_reverts_to_defaults` at `c8args`. -/
theorem C8_recursion_reverts_to_defaults_witness :
    invalidArgs c8args = false ∧ c8frac > Rat.divInt 1 2 ∧
    (select_segments c8args =
        select_segments (covOnlyArgs [2, 1] [0, 0, 0, 1] c8target) ∧
      select_segments (covOnlyArgs [2, 1] [0, 0, 0, 1] c8target) =
        .ok (covSelectDefault [2, 1] [0, 0, 0, 1] c8target)) :=
  ⟨by decide, by decide,
    C8_recursion_reverts_to_defaults c8args 0 rfl rfl (by decide) (Or.inl (by decide))⟩

/-! ### Opacity scaling (`scale_opacity`, lines 184-209 of `visualize.py`) -/

/-- An RGBA pixel of the overlay raster (channels 0-2 color, channel 3
alpha). -/
structure RGBA where
  r : ℝ
  g : ℝ
  b : ℝ
  a : ℝ

/-- Embeds `np.linalg.norm(segment_weights)`: the Euclidean norm. -/
noncomputable def l2norm (w : List ℝ) : ℝ :=
  Real.sqrt ((w.map (fun x => x ^ 2)).sum)

/-- Line 191: `rescaled_weights = np.abs(segment_weights / np.linalg.norm(segment_weights))`. -/
noncomputable def rescaled_weights (w : List ℝ) : List ℝ :=
  w.map (fun x => |x / l2norm w|)

/-- Embeds `np.max` of a list (`0` for the empty list, on which numpy raises;
all uses below are on nonempty lists). -/
noncomputable def npMax : List ℝ → ℝ
  | [] => 0
  | x :: xs => xs.foldl max x

/-- The `relative_to` argument, of Python type `Union[str, float]`. -/
inductive RelTo where
  | str (s : String)
  | num (r : ℝ)

/-- Lines 193-198: `reference` is the maximum rescaled weight for `"max"`,
the clamp `max(0.0, min(relative_to, 1.0))` for a float, and a `ValueError`
for any other string. -/
noncomputable def resolveRef (relative_to : RelTo) (rescaled : List ℝ) : Except String ℝ :=
  match relative_to with
  | .str s => if s = "max" then .ok (npMax rescaled) else .error "Invalid value for relative_to"
  | .num r => .ok (max 0 (min r 1))

/-- Line 201: `new_opacity = 255 * rescaled_weights / reference`, read at a
segment id. -/
noncomputable def new_opacity (w : List ℝ) (ref : ℝ) (sid : ℕ) : ℝ :=
  255 * (rescaled_weights w).getD sid 0 / ref

/-- Overwrite the alpha channel of a pixel. -/
def setAlpha (px : RGBA) (v : ℝ) : RGBA := ⟨px.r, px.g, px.b, v⟩

/-- Lines 206-207 for a single id: `new_overlay[segment_mask == segment_id, 3] = v`. -/
def writeSegmentAlpha (mask : Mask) (sid : ℕ) (v : ℝ) (ov : List RGBA) : List RGBA :=
  List.zipWith (fun px m => if m = sid then setAlpha px v else px) ov mask

/-- The `for segment_id in segments_to_color` loop of lines 205-207, starting
from the copy `new_overlay` of the input overlay. -/
def applyOpacity (mask : Mask) (f : ℕ → ℝ) (segs : List ℕ) (ov : List RGBA) : List RGBA :=
  segs.foldl (fun acc sid => writeSegmentAlpha mask sid (f sid) acc) ov

/-- Embeds `scale_opacity` (lines 184-209), on a flattened overlay and mask. -/
noncomputable def scale_opacity (overlay : List RGBA) (segment_weights : List ℝ)
    (segment_mask : Mask) (segments_to_color : List ℕ) (relative_to : RelTo) :
    Except String (List RGBA) :=
  match resolveRef relative_to (rescaled_weights segment_weights) with
  | .error e => .error e
  | .ok ref => .ok (applyOpacity segment_mask (new_opacity segment_weights ref)
      segments_to_color overlay)

/-- The default pixel used with `List.getD`. -/
def px0 : RGBA := ⟨0, 0, 0, 0⟩

theorem writeSegmentAlpha_length (mask : Mask) (sid : ℕ) (v : ℝ) (ov : List RGBA) :
    (writeSegmentAlpha mask sid v ov).length = min ov.length mask.length := by
  simp [writeSegmentAlpha]

theorem getD_writeSegmentAlpha (sid : ℕ) (v : ℝ) :
    ∀ (p : ℕ) (ov : List RGBA) (mask : Mask), p < ov.length → p < mask.length →
      ∀ d : RGBA, (writeSegmentAlpha mask sid v ov).getD p d =
        if mask.getD p 0 = sid then setAlpha (ov.getD p d) v else ov.getD p d := by
  intro p
  induction p with
  | zero =>
    intro ov mask hov hm d
    cases ov with
    | nil => simp at hov
    | cons px ovt =>
      cases mask with
      | nil => simp at hm
      | cons m mt => simp [writeSegmentAlpha]
  | succ n ih =>
    intro ov mask hov hm d
    cases ov with
    | nil => simp at hov
    | cons px ovt =>
      cases mask with
      | nil => simp at hm
      | cons m mt =>
        have h1 : n < ovt.length := by simpa using hov
        have h2 : n < mt.length := by simpa using hm
        simpa [writeSegmentAlpha] using ih ovt mt h1 h2 d

/-- Pointwise characterization of the write loop: a pixel whose label is in
`segs` ends with alpha `f label`; every other pixel is untouched. -/
theorem applyOpacity_getD (mask : Mask) (f : ℕ → ℝ) :
    ∀ (segs : List ℕ) (ov : List RGBA), ov.length = mask.length →
      (applyOpacity mask f segs ov).length = mask.length ∧
      ∀ p : ℕ, p < mask.length → ∀ d : RGBA,
        (applyOpacity mask f segs ov).getD p d =
          if mask.getD p 0 ∈ segs then setAlpha (ov.getD p d) (f (mask.getD p 0))
          else ov.getD p d := by
  intro segs
  induction segs with
  | nil =>
    intro ov hlen
    exact ⟨hlen, fun p hp d => by simp [applyOpacity]⟩
  | cons sg t ih =>
    intro ov hlen
    have hwl : (writeSegmentAlpha mask sg (f sg) ov).length = mask.length := by
      rw [writeSegmentAlpha_length, hlen, min_self]
    have happ : applyOpacity mask f (sg :: t) ov =
        applyOpacity mask f t (writeSegmentAlpha mask sg (f sg) ov) := rfl
    obtain ⟨ihlen, ihp⟩ := ih (writeSegmentAlpha mask sg (f sg) ov) hwl
    refine ⟨by rw [happ]; exact ihlen, ?_⟩
    intro p hp d
    rw [happ, ihp p hp d,
      getD_writeSegmentAlpha sg (f sg) p ov mask (by omega) hp d]
    by_cases hm : mask.getD p 0 ∈ t
    · rw [if_pos hm, if_pos (List.mem_cons_of_mem sg hm)]
      by_cases hs : mask.getD p 0 = sg
      · rw [if_pos hs, hs]
        rfl
      · rw [if_neg hs]
    · rw [if_neg hm]
      by_cases hs : mask.getD p 0 = sg
      · rw [if_pos hs, hs, if_pos (List.mem_cons_self sg t)]
      · rw [if_neg hs, if_neg (by simp only [List.mem_cons]; exact fun hc => hc.elim hs hm)]

/-- C9: `scale_opacity` is pure (the result is a fresh raster computed
from its read-only inputs) and the output agrees with the input overlay on
every channel of every pixel except the alpha channel of pixels whose mask
label is in `segments_to_color`, which is rewritten to
`255 * rescaled_weight[label] / reference`. -/
theorem C9_scale_opacity_pointwise (overlay : List RGBA) (w : List ℝ) (mask : Mask)
    (segs : List ℕ) (relative_to : RelTo) (ref : ℝ)
    (href : resolveRef relative_to (rescaled_weights w) = .ok ref)
    (hlen : overlay.length = mask.length) :
    ∃ out, scale_opacity overlay w mask segs relative_to = .ok out ∧
      out.length = overlay.length ∧
      ∀ p : ℕ, p < overlay.length →
        ((out.getD p px0).r = (overlay.getD p px0).r ∧
         (out.getD p px0).g = (overlay.getD p px0).g ∧
         (out.getD p px0).b = (overlay.getD p px0).b) ∧
        (out.getD p px0).a =
          (if mask.getD p 0 ∈ segs
           then 255 * (rescaled_weights w).getD (mask.getD p 0) 0 / ref
           else (overlay.getD p px0).a) := by
  refine ⟨applyOpacity mask (new_opacity w ref) segs overlay, ?_, ?_, ?_⟩
  · rw [scale_opacity, href]
  · rw [(applyOpacity_getD mask (new_opacity w ref) segs overlay hlen).1, hlen]
  · intro p hp
    have hgd := (applyOpacity_getD mask (new_opacity w ref) segs overlay hlen).2
      p (by omega) px0
    by_cases hm : mask.getD p 0 ∈ segs
    · rw [hgd, if_pos hm, if_pos hm]
      exact ⟨⟨rfl, rfl, rfl⟩, rfl⟩
    · rw [hgd, if_neg hm, if_neg hm]
      exact ⟨⟨rfl, rfl, rfl⟩, rfl⟩

/-- Witness for `C9_scale_opacity_pointwise` with a numeric `relative_to`. -/
theorem C9_scale_opacity_pointwise_witness :
    resolveRef (RelTo.num (1/2)) (rescaled_weights [1]) =
      .ok (max 0 (min (1/2 : ℝ) 1)) ∧
    (([(⟨1, 2, 3, 4⟩ : RGBA), ⟨5, 6, 7, 8⟩] : List RGBA).length = ([0, 1] : Mask).length) ∧
    (∃ out, scale_opacity [(⟨1, 2, 3, 4⟩ : RGBA), ⟨5, 6, 7, 8⟩] [1] [0, 1] [0]
        (RelTo.num (1/2)) = .ok out ∧
      out.length = ([(⟨1, 2, 3, 4⟩ : RGBA), ⟨5, 6, 7, 8⟩] : List RGBA).length ∧
      ∀ p : ℕ, p < ([(⟨1, 2, 3, 4⟩ : RGBA), ⟨5, 6, 7, 8⟩] : List RGBA).length →
        ((out.getD p px0).r = (([(⟨1, 2, 3, 4⟩ : RGBA), ⟨5, 6, 7, 8⟩] : List RGBA).getD p px0).r ∧
         (out.getD p px0).g = (([(⟨1, 2, 3, 4⟩ : RGBA), ⟨5, 6, 7, 8⟩] : List RGBA).getD p px0).g ∧
         (out.getD p px0).b = (([(⟨1, 2, 3, 4⟩ : RGBA), ⟨5, 6, 7, 8⟩] : List RGBA).getD p px0).b) ∧
        (out.getD p px0).a =
          (if ([0, 1] : Mask).getD p 0 ∈ ([0] : List ℕ)
           then 255 * (rescaled_weights [1]).getD (([0, 1] : Mask).getD p 0) 0 /
             (max 0 (min (1/2 : ℝ) 1))
           else (([(⟨1, 2, 3, 4⟩ : RGBA), ⟨5, 6, 7, 8⟩] : List RGBA).getD p px0).a)) :=
  ⟨rfl, rfl, C9_scale_opacity_pointwise [⟨1, 2, 3, 4⟩, ⟨5, 6, 7, 8⟩] [1] [0, 1] [0]
    (RelTo.num (1/2)) (max 0 (min (1/2 : ℝ) 1)) rfl rfl⟩

/-- C10: `scale_opacity` raises iff `relative_to` is a string other than
`"max"`; every numeric `relative_to` is clamped into `[0, 1]` and used as
the reference, with no error. -/
theorem C10_relative_to_error_iff (overlay : List RGBA) (w : List ℝ) (mask : Mask)
    (segs : List ℕ) (relative_to : RelTo) :
    ((scale_opacity overlay w mask segs relative_to).isOk = false ↔
      ∃ s, relative_to = RelTo.str s ∧ s ≠ "max") ∧
    ∀ r : ℝ, resolveRef (RelTo.num r) (rescaled_weights w) = .ok (max 0 (min r 1)) := by
  refine ⟨?_, fun r => rfl⟩
  cases relative_to with
  | str s =>
    by_cases hs : s = "max"
    · subst hs
      rw [scale_opacity]
      rw [show resolveRef (RelTo.str "max") (rescaled_weights w) =
        .ok (npMax (rescaled_weights w)) from rfl]
      constructor
      · intro h
        exact absurd h (by simp [Except.isOk, Except.toBool])
      · rintro ⟨s', hs', hne⟩
        injection hs' with h''
        exact absurd h''.symm hne
    · rw [scale_opacity]
      rw [show resolveRef (RelTo.str s) (rescaled_weights w) =
        .error "Invalid value for relative_to" from if_neg hs]
      exact ⟨fun _ => ⟨s, rfl, hs⟩, fun _ => by simp [Except.isOk, Except.toBool]⟩
  | num r =>
    rw [scale_opacity]
    rw [show resolveRef (RelTo.num r) (rescaled_weights w) =
      .ok (max 0 (min r 1)) from rfl]
    constructor
    · intro h
      exact absurd h (by simp [Except.isOk, Except.toBool])
    · rintro ⟨s', hs', _⟩
      exact RelTo.noConfusion hs'
